import Mathlib

/-
Verification of the asphalt core Context / Resource / Component-startup
subsystem against its specification.

The orchestrator (`_component.py`), the runner and the CLI are present in the
sources and are embedded directly.  The Context / resource registry / injector
module (`_context.py`) and the exception definitions (`_exceptions.py`) are not
part of the sources (only their tests and callers are), so those parts are
modelled from the spec, as indicated in the doc comment of each such
definition.

Conventions of the embedding:
  * Python exceptions become the `PyExc` inductive; fallible operations
    return `Except PyExc`.
  * Resource values are natural numbers; Python types are represented by
    their qualified names (`String`), resource names by `String`.
  * A context is `Ctx`; a context chain (`context_chain`, the context itself
    first, then its ancestors) is a `List Ctx`.
  * The cooperative single-threaded scheduler is modelled by explicit
    interleaving: concurrent publications are a list of `Pub` actions the
    waiting consumer observes in order.
-/

set_option linter.unusedVariables false

/-- Python exception values relevant to the asphalt core, as plain data.
`componentStartError` carries the startup phase, the dotted component path,
the component class name and the original exception as its cause (`from exc`).
`exceptionGroup` is the aggregate error used for teardown failures. -/
inductive PyExc where
  | resourceNotFound (ty : String) (name : String)
  | resourceConflict (msg : String)
  | noCurrentContext
  | runtimeError (msg : String)
  | valueError (msg : String)
  | typeError (msg : String)
  | timeoutError (msg : String)
  | keyError (key : String)
  | componentStartError (phase : String) (path : String) (cls : String) (cause : PyExc)
  | exceptionGroup (excs : List PyExc)
  | userError (tag : Nat)

/-- Single-quote character, used in Python `repr` of strings inside error
messages. -/
def apos : String := String.singleton (Char.ofNat 39)

/-- Modelled from the spec: the `ResourceConflict` message of `add_resource`
(missing `_context.py`), as pinned down by S3 and
`test_add_resource_name_conflict`. -/
def conflictMsg (ty name : String) : String :=
  "this context already contains a resource of type " ++ ty ++
    " using the name " ++ apos ++ name ++ apos

/-- Modelled from the spec: the `ResourceConflict` message of
`add_resource_factory` (missing `_context.py`), as pinned down by
`test_add_resource_factory_type_conflict`. -/
def factoryConflictMsg (ty : String) : String :=
  "this context already contains a resource factory for the type " ++ ty

/-- Modelled from the spec: validation message for bad resource names
(missing `_context.py`), from `test_add_resource_bad_name`. -/
def badNameMsg : String :=
  "\"name\" must be a nonempty string consisting only of alphanumeric " ++
    "characters and underscores"

/-- Modelled from the spec: validation message for a null resource value
(missing `_context.py`), from `test_add_resource_none_value`. -/
def noneValueMsg : String := "\"value\" must not be None"

/-- Modelled from the spec: a `ResourceEntry` holds the materialized value and
its declared types (§3 data model; `_context.py` is missing). -/
structure REntry where
  value : Nat
  types : List String
deriving DecidableEq

/-- Modelled from the spec: a `FactoryEntry` holds the factory callback and its
declared types (§3).  The callback receives the requesting context; in the
model it receives that context's id. -/
structure FEntry where
  factory : Nat → Nat
  types : List String

/-- Modelled from the spec: a Context's resource registry (§3).  `resources`
and `factories` are insertion-ordered mappings keyed by
`(qualified type name, resource name)`. -/
structure Ctx where
  ctxId : Nat
  resources : List ((String × String) × REntry)
  factories : List ((String × String) × FEntry)

/-- A `context_chain`: the context itself first, then each ancestor up to the
root (§3). -/
abbrev CtxChain := List Ctx

/-- Mapping lookup in an insertion-ordered resource registry (Python dict
access by key; keys are unique because republication is refused). -/
def lookupResList : List ((String × String) × REntry) → String → String → Option REntry
  | [], _, _ => none
  | (k, e) :: rest, ty, name =>
    if k = (ty, name) then some e else lookupResList rest ty name

/-- Mapping lookup in an insertion-ordered factory registry. -/
def lookupFactList : List ((String × String) × FEntry) → String → String → Option FEntry
  | [], _, _ => none
  | (k, e) :: rest, ty, name =>
    if k = (ty, name) then some e else lookupFactList rest ty name

/-- Modelled from the spec: resolution step 1 of `get_resource` (§4.1) — walk
the `context_chain` innermost outward and return the first matching
`ResourceEntry`. -/
def findResource : CtxChain → String → String → Option Nat
  | [], _, _ => none
  | c :: rest, ty, name =>
    match lookupResList c.resources ty name with
    | some e => some e.value
    | none => findResource rest ty name

/-- Modelled from the spec: resolution step 2 of `get_resource` (§4.1) — walk
the `context_chain` and return the first matching `FactoryEntry`. -/
def findFactory : CtxChain → String → String → Option FEntry
  | [], _, _ => none
  | c :: rest, ty, name =>
    match lookupFactList c.factories ty name with
    | some e => some e
    | none => findFactory rest ty name

/-- Register one `ResourceEntry` in a context under every declared type
(one mapping entry per type, as in §4.1 `add_resource`). -/
def storeRes (c : Ctx) (types : List String) (name : String) (e : REntry) : Ctx :=
  { c with resources := c.resources ++ types.map (fun t => ((t, name), e)) }

/-- Register one `FactoryEntry` in a context under every declared type
(one mapping entry per type, as in §4.1 `add_resource_factory`). -/
def storeFact (c : Ctx) (types : List String) (name : String) (e : FEntry) : Ctx :=
  { c with factories := c.factories ++ types.map (fun t => ((t, name), e)) }

/-- Apply a function to the i-th context of a chain (mutation of one context
in the chain); out-of-range indices leave the chain unchanged. -/
def modifyAt : CtxChain → Nat → (Ctx → Ctx) → CtxChain
  | [], _, _ => []
  | c :: rest, 0, f => f c :: rest
  | c :: rest, i + 1, f => c :: modifyAt rest i f

/-- Modelled from the spec: `Context.get_resource_nowait` (§4.1; `_context.py`
is missing).  Resolution: (1) first `ResourceEntry` in the chain wins; (2) else
a `FactoryEntry` anywhere in the chain is invoked with the requesting (first)
context and its value is stored as a `ResourceEntry` in that requesting
context; (3) else `None` when `optional`, otherwise `ResourceNotFound`.
Returns the resolved value and the updated chain. -/
def get_resource_nowait (chain : CtxChain) (ty name : String) (optional : Bool) :
    Except PyExc (Option Nat × CtxChain) :=
  match findResource chain ty name with
  | some v => .ok (some v, chain)
  | none =>
    match findFactory chain ty name with
    | some fe =>
      match chain with
      | [] => .error (.resourceNotFound ty name)
      | c :: rest =>
        let v := fe.factory c.ctxId
        .ok (some v, storeRes c fe.types name ⟨v, fe.types⟩ :: rest)
    | none =>
      if optional then .ok (none, chain) else .error (.resourceNotFound ty name)

/-- Modelled from the spec: resource name validation (§3 invariant 1, with the
character class taken from the message asserted in
`test_add_resource_bad_name`). -/
def validName (s : String) : Bool :=
  !s.isEmpty && s.toList.all (fun c => c.isAlphanum || c = '_')

/-- Effective declared types of `add_resource`: the declared tuple, or the
concrete runtime type of the value when the tuple is empty (§4.1). -/
def effTypes (types : List String) (valueType : String) : List String :=
  if types.isEmpty then [valueType] else types

/-- A `(type, name)` key counts as published in a context when it maps to a
`ResourceEntry` or to a `FactoryEntry` there (§3 invariant 3). -/
def keyTaken (c : Ctx) (ty name : String) : Bool :=
  (lookupResList c.resources ty name).isSome ||
    (lookupFactList c.factories ty name).isSome

/-- Modelled from the spec: `Context.add_resource` (§4.1; `_context.py` is
missing).  Rejects a null value and an invalid name, fails with
`ResourceConflict` when any effective `(type, name)` key is already published
in this context, and otherwise registers the value under every effective
type. -/
def add_resource (c : Ctx) (value : Option Nat) (name : String)
    (types : List String) (valueType : String) : Except PyExc Ctx :=
  match value with
  | none => .error (.valueError noneValueMsg)
  | some v =>
    if !validName name then .error (.valueError badNameMsg)
    else
      let tys := effTypes types valueType
      match tys.find? (fun t => keyTaken c t name) with
      | some t => .error (.resourceConflict (conflictMsg t name))
      | none => .ok (storeRes c tys name ⟨v, tys⟩)

/-- Modelled from the spec: `Context.add_resource_factory` (§4.1; `_context.py`
is missing).  The expansion of the factory's return annotation into concrete
types is outside the model: the declared types are passed explicitly, and at
least one is required. -/
def add_resource_factory (c : Ctx) (factory : Nat → Nat) (name : String)
    (types : List String) : Except PyExc Ctx :=
  if !validName name then .error (.valueError badNameMsg)
  else if types.isEmpty then .error (.valueError "no resource types were specified")
  else
    match types.find? (fun t => keyTaken c t name) with
    | some t => .error (.resourceConflict (factoryConflictMsg t))
    | none => .ok (storeFact c types name ⟨factory, types⟩)

/-- A publication performed by a concurrently running producer while a consumer
waits: either `add_resource` or `add_resource_factory` on the context at the
given chain index.  Each publication emits a `resource_added` event carrying
the resource name and declared types (§3). -/
inductive Pub where
  | res (idx : Nat) (name : String) (types : List String) (v : Nat)
  | fact (idx : Nat) (name : String) (types : List String) (f : Nat → Nat)

/-- Resource name carried by the `resource_added` event of a publication. -/
def Pub.rname : Pub → String
  | .res _ n _ _ => n
  | .fact _ n _ _ => n

/-- Declared resource types carried by the `resource_added` event of a
publication. -/
def Pub.rtypes : Pub → List String
  | .res _ _ t _ => t
  | .fact _ _ t _ => t

/-- Chain index of the context the publication targets. -/
def Pub.pidx : Pub → Nat
  | .res i _ _ _ => i
  | .fact i _ _ _ => i

/-- Effect of a publication on the chain: the entry is inserted into the
targeted context under every declared type. -/
def applyPub (chain : CtxChain) (p : Pub) : CtxChain :=
  match p with
  | .res i name types v => modifyAt chain i (fun c => storeRes c types name ⟨v, types⟩)
  | .fact i name types f => modifyAt chain i (fun c => storeFact c types name ⟨f, types⟩)

/-- The event predicate of `ComponentContextProxy.get_resource`
(`_component.py` lines 352-354): the event's resource name equals the wanted
name and the wanted type is among the event's resource types. -/
def pubMatches (p : Pub) (ty name : String) : Bool :=
  p.rname == name && p.rtypes.contains ty

/-- The `wait_event` retry loop of `ComponentContextProxy.get_resource`
(`_component.py` lines 340-362): consume published events in order; a
non-matching event is skipped (its state change still happens); on the first
matching event the proxy retries `get_resource` from the start, which performs
the base lookup and, if that still fails, waits again for the remaining
events.  `none` models waiting forever (no further event ever matches). -/
def proxy_wait : CtxChain → List Pub → String → String → Option (Nat × CtxChain)
  | _, [], _, _ => none
  | chain, p :: rest, ty, name =>
    let chain2 := applyPub chain p
    if pubMatches p ty name then
      match get_resource_nowait chain2 ty name false with
      | .ok (some v, chain3) => some (v, chain3)
      | _ => proxy_wait chain2 rest ty name
    else proxy_wait chain2 rest ty name

/-- `ComponentContextProxy.get_resource` with `optional=False`
(`_component.py` lines 330-362): delegate to the surrounding real context; on
`ResourceNotFound` subscribe to `resource_added` on every context in the chain
and retry on a matching event.  `pubs` is the schedule of publications the
producers perform while this consumer waits. -/
def proxy_get_resource (chain : CtxChain) (pubs : List Pub) (ty name : String) :
    Option (Nat × CtxChain) :=
  match get_resource_nowait chain ty name false with
  | .ok (some v, chain2) => some (v, chain2)
  | _ => proxy_wait chain pubs ty name

/-- Modelled from the spec: a teardown callback registration (§4.1;
`_context.py` is missing).  `raises` is the exception the callback raises when
invoked (`none` when it returns normally); `label` identifies the callback so
that the invocation order can be observed. -/
structure TeardownCb where
  label : Nat
  passException : Bool
  raises : Option PyExc

/-- Modelled from the spec: the teardown loop of `Context.close` (§4.1) — run
the callbacks in the given order, awaiting each sequentially, record each
invocation together with the exception argument it received, and collect the
exceptions raised by callbacks without stopping. -/
def run_teardowns : List TeardownCb → Option PyExc →
    List (Nat × Option PyExc) × List PyExc
  | [], _ => ([], [])
  | cb :: rest, exc =>
    let received := if cb.passException then exc else none
    let result := run_teardowns rest exc
    ((cb.label, received) :: result.1,
     match cb.raises with
     | some e => e :: result.2
     | none => result.2)

/-- Modelled from the spec: `Context.close(exception)` (§4.1; `_context.py` is
missing) — run the teardown callbacks in reverse registration order; a
callback registered with `pass_exception` receives the exception argument;
exceptions raised by callbacks are collected and rethrown as one aggregate
error after all callbacks have run.  Returns the invocation log and the
outcome. -/
def close (callbacks : List TeardownCb) (exception : Option PyExc) :
    List (Nat × Option PyExc) × Except PyExc Unit :=
  let result := run_teardowns callbacks.reverse exception
  (result.1,
   if result.2.isEmpty then .ok () else .error (.exceptionGroup result.2))

/-- A `ComponentStartupEvent` (`_component.py` lines 217-230) as observed by
the supervisor: component class name, dotted path and status string.  The
`coro` attribute (a live coroutine object used only for best-effort stack
dumps) is outside the model. -/
structure SupEvent where
  cls : String
  path : String
  status : String
deriving DecidableEq

/-- The per-path record kept by `_watch_component_tree_startup`
(`_component.py` lines 550-556), minus the coroutine field. -/
structure CompStatus where
  cls : String
  status : String
deriving DecidableEq

/-- The supervisor's `component_statuses` dict: insertion-ordered mapping from
path to status record. -/
abbrev StatusMap := List (String × CompStatus)

/-- Python dict assignment `d[k] = v`: replace in place when the key exists,
append otherwise. -/
def dictSet : StatusMap → String → CompStatus → StatusMap
  | [], k, v => [(k, v)]
  | (k0, v0) :: rest, k, v =>
    if k0 = k then (k, v) :: rest else (k0, v0) :: dictSet rest k v

/-- Python dict read `d[k]`, `none` for a missing key. -/
def dictGet? : StatusMap → String → Option CompStatus
  | [], _ => none
  | (k0, v0) :: rest, k => if k0 = k then some v0 else dictGet? rest k

/-- Python `del d[k]`, `none` when the key is missing (`KeyError`). -/
def dictDel? : StatusMap → String → Option StatusMap
  | [], _ => none
  | (k0, v0) :: rest, k =>
    if k0 = k then some rest
    else (dictDel? rest k).map (fun m => (k0, v0) :: m)

/-- The event loop of `_watch_component_tree_startup` (`_component.py` lines
562-573): a `creating` event records the component; a `started` event removes
it and, when no component remains, breaks out of the loop; any other status
updates the record in place.  A missing key raises `KeyError` as the Python
dict operations would.  The argument list is the prefix of the event stream
delivered before the `move_on_after` deadline. -/
def watch_loop : List SupEvent → StatusMap → Except PyExc StatusMap
  | [], m => .ok m
  | e :: rest, m =>
    if e.status = "creating" then
      watch_loop rest (dictSet m e.path ⟨e.cls, e.status⟩)
    else if e.status = "started" then
      match dictDel? m e.path with
      | none => .error (.keyError e.path)
      | some m2 => if m2.isEmpty then .ok m2 else watch_loop rest m2
    else
      match dictGet? m e.path with
      | none => .error (.keyError e.path)
      | some cs => watch_loop rest (dictSet m e.path ⟨cs.cls, e.status⟩)

/-- One line of the supervisor's status dump (`_component.py` lines 581-584):
the last alias of the path (or `(root)`), indented two spaces per path
segment, followed by the current status. -/
def statusLine (path status : String) : String :=
  let parts := (if path = "" then "(root)" else path).splitOn "."
  let indent := String.join (List.replicate (if path = "" then 0 else parts.length) "  ")
  indent ++ parts.getLastD "" ++ ": " ++ status

/-- Observable outcome of the supervisor task: the per-path status lines it
logs (empty when it exits silently) and the exception it raises, if any. -/
structure SupervisorOutcome where
  loggedLines : List String
  raised : Option PyExc

/-- `_watch_component_tree_startup` (`_component.py` lines 547-604) over the
prefix of startup events delivered before the timeout deadline: run the event
loop; when components remain unfinished afterwards, log one status line per
unfinished path and raise `TimeoutError` (the best-effort coroutine stack
summaries of the log are outside the model). -/
def watch_component_tree_startup (processed : List SupEvent) : SupervisorOutcome :=
  match watch_loop processed [] with
  | .error e => ⟨[], some e⟩
  | .ok m =>
    if m.isEmpty then ⟨[], none⟩
    else ⟨m.map (fun pc => statusLine pc.1 pc.2.status),
          some (.timeoutError "timeout starting component tree")⟩

/-- Startup event traces in which every component recorded as `creating` later
reports `started` within the processed prefix.  `pend` is the insertion-ordered
list of created-but-not-yet-started paths; the `startedLast` case mirrors the
supervisor's `break` when the last pending component starts, after which the
remaining events are irrelevant. -/
inductive Completes : List String → List SupEvent → Prop where
  | nil : Completes [] []
  | creating (cls path : String) (pend : List String) (rest : List SupEvent) :
      path ∉ pend → Completes (pend ++ [path]) rest →
      Completes pend (⟨cls, path, "creating"⟩ :: rest)
  | startedLast (cls path : String) (pend : List String) (rest : List SupEvent) :
      path ∈ pend → pend.erase path = [] →
      Completes pend (⟨cls, path, "started"⟩ :: rest)
  | startedMore (cls path : String) (pend : List String) (rest : List SupEvent) :
      path ∈ pend → pend.erase path ≠ [] → Completes (pend.erase path) rest →
      Completes pend (⟨cls, path, "started"⟩ :: rest)
  | progress (cls path st : String) (pend : List String) (rest : List SupEvent) :
      st ≠ "creating" → st ≠ "started" → path ∈ pend → Completes pend rest →
      Completes pend (⟨cls, path, st⟩ :: rest)

/-- `_init_component` instantiation step (`_component.py` lines 434-446):
dispatch `creating`, instantiate the component class with the node's
configuration, wrap any exception in `ComponentStartError("creating", path,
class)` with the original exception as cause, and dispatch `created` on
success.  `instantiation` is the outcome of `component_class(**config)`; the
result pairs the dispatched events with the final outcome. -/
def init_component_events_result (path cls : String)
    (instantiation : Except PyExc Nat) : List SupEvent × Except PyExc Nat :=
  match instantiation with
  | .ok comp => ([⟨cls, path, "creating"⟩, ⟨cls, path, "created"⟩], .ok comp)
  | .error e =>
    ([⟨cls, path, "creating"⟩], .error (.componentStartError "creating" path cls e))

/-- Outcomes of the user hooks involved in `_start_component` for one node:
whether the class overrides `prepare` / `start`, whether the node has child
components, and the result of awaiting each hook and the concurrent child
start group. -/
structure PhaseOutcomes where
  prepareOverridden : Bool
  prepareResult : Except PyExc Unit
  hasChildren : Bool
  childrenResult : Except PyExc Unit
  startOverridden : Bool
  startResult : Except PyExc Unit

/-- `_start_component` (`_component.py` lines 469-536): when `prepare` is
overridden, dispatch `preparing` and await it, wrapping a failure in
`ComponentStartError("preparing", path, class)`; then start the children
concurrently (their errors propagate unwrapped); when `start` is overridden,
dispatch `starting` and await it, wrapping a failure in
`ComponentStartError("starting", path, class)`; finally dispatch `started`.
Returns the dispatched events and the outcome. -/
def start_component_model (path cls : String) (po : PhaseOutcomes) :
    List SupEvent × Except PyExc Unit :=
  let prepEvents : List SupEvent :=
    if po.prepareOverridden then [⟨cls, path, "preparing"⟩] else []
  match (if po.prepareOverridden then po.prepareResult else .ok ()) with
  | .error e => (prepEvents, .error (.componentStartError "preparing" path cls e))
  | .ok _ =>
    let childEvents : List SupEvent :=
      if po.hasChildren then [⟨cls, path, "starting children"⟩] else []
    match (if po.hasChildren then po.childrenResult else .ok ()) with
    | .error e => (prepEvents ++ childEvents, .error e)
    | .ok _ =>
      let startEvents : List SupEvent :=
        if po.startOverridden then [⟨cls, path, "starting"⟩] else []
      match (if po.startOverridden then po.startResult else .ok ()) with
      | .error e =>
        (prepEvents ++ childEvents ++ startEvents,
         .error (.componentStartError "starting" path cls e))
      | .ok _ =>
        (prepEvents ++ childEvents ++ startEvents ++ [⟨cls, path, "started"⟩],
         .ok ())

/-- `current_context` over the task-local context stack: the innermost active
context, or `NoCurrentContext` when the stack is empty (spec §4.1; behaviour
pinned by `test_current_context`). -/
def current_context : List Nat → Except PyExc Nat
  | [] => .error .noCurrentContext
  | c :: _ => .ok c

/-- The active-context guard of `start_component` (`_component.py` lines
203-208): call `current_context()`; when it raises `NoCurrentContext`, raise
`RuntimeError` with the fixed message instead (`from None`). -/
def start_component_context_check (stack : List Nat) : Except PyExc Unit :=
  match current_context stack with
  | .ok _ => .ok ()
  | .error .noCurrentContext =>
    .error (.runtimeError "start_component() requires an active Asphalt context")
  | .error e => .error e

/-- A component `type` reference in a configuration: either a string or a
direct class reference (identified by the class name). -/
inductive CompType where
  | str (s : String)
  | cls (c : String)
deriving DecidableEq

/-- Python `"/" in s`: the string contains a slash character. -/
def strContainsSlash (s : String) : Bool := s.toList.contains '/'

/-- Python `s.split("/")[0]`: the longest prefix of the string free of
slashes, i.e. the part of the string before its first slash. -/
def strBeforeSlash (s : String) : String :=
  String.mk (s.toList.takeWhile (fun c => c ≠ '/'))

/-- The slash handling of `_init_component` (`_component.py` lines 462-464):
when a child's `type` is a string containing a slash, only the part before the
first slash is kept; any other reference is left unchanged. -/
def stripTypeSuffix (t : CompType) : CompType :=
  match t with
  | .str s => if strContainsSlash s then .str (strBeforeSlash s) else t
  | .cls c => .cls c

/-- A component configuration node: the optional `type` key and the
`components` child mapping (a null child configuration is represented as
`NodeConfig.mk none []`, which is what `{}` amounts to after the loop's
normalisation). -/
inductive NodeConfig where
  | mk (typeKey : Option CompType) (components : List (String × NodeConfig))

/-- The `type` key of a configuration node. -/
def NodeConfig.typeKey : NodeConfig → Option CompType
  | .mk t _ => t

/-- The `components` child mapping of a configuration node. -/
def NodeConfig.components : NodeConfig → List (String × NodeConfig)
  | .mk _ c => c

/-- Dotted path of a child node (`_component.py` line 466):
`f"{path}.{alias}" if path else alias`. -/
def finalPath (path aName : String) : String :=
  if path = "" then aName else path ++ "." ++ aName

mutual
/-- The sequence of `(path, type reference)` pairs that `_init_component`
(`_component.py` lines 414-467) passes to `component_types.resolve`, in
instantiation order: the node itself is resolved from the type reference it
was invoked with, then each child is resolved from its `type` key (defaulting
to its alias) after slash-stripping. -/
def initTypeRefs : String → CompType → List (String × NodeConfig) →
    List (String × CompType)
  | path, tyRef, comps => (path, tyRef) :: init_child_refs path comps

/-- The child-creation loop of `_init_component` (`_component.py` lines
455-467): each child's `type` defaults to its alias, slash suffixes are
stripped from string types, and the child is initialised recursively under its
dotted path. -/
def init_child_refs : String → List (String × NodeConfig) →
    List (String × CompType)
  | _, [] => []
  | path, (aName, .mk tk comps) :: rest =>
    initTypeRefs (finalPath path aName)
        (stripTypeSuffix (tk.getD (.str aName))) comps ++
      init_child_refs path rest
end

/-- Python dict assignment for `type`-valued configuration mappings. -/
def dict_set_comp : List (String × CompType) → String → CompType →
    List (String × CompType)
  | [], k, v => [(k, v)]
  | (k0, v0) :: rest, k, v =>
    if k0 = k then (k, v) :: rest else (k0, v0) :: dict_set_comp rest k v

/-- Python dict read for `type`-valued configuration mappings. -/
def dict_get_comp? : List (String × CompType) → String → Option CompType
  | [], _ => none
  | (k0, v0) :: rest, k => if k0 = k then some v0 else dict_get_comp? rest k

/-- Python dict built by inserting the given key/value pairs in order (later
occurrences of a key overwrite earlier ones). -/
def py_dict_of (pairs : List (String × CompType)) : List (String × CompType) :=
  pairs.foldl (fun m kv => dict_set_comp m kv.1 kv.2) []

/-- The root mapping of `start_component_tree` (`_component.py` line 543):
the dict display `d` with key `type` mapped to the root component class,
updated in order with the entries of the unpacked configuration (so a `type`
key in the configuration overwrites the class argument). -/
def root_start_mapping (rootClass : CompType)
    (cfgPairs : List (String × CompType)) : List (String × CompType) :=
  cfgPairs.foldl (fun m kv => dict_set_comp m kv.1 kv.2) [("type", rootClass)]

/-- The `type` reference `_init_component` pops for the root node. -/
def root_type_ref? (rootClass : CompType) (cfgPairs : List (String × CompType)) :
    Option CompType :=
  dict_get_comp? (root_start_mapping rootClass cfgPairs) "type"

/-- `start_component_tree` (`_component.py` lines 538-545) restricted to type
resolution: initialise the root from the merged mapping (path `""`), then its
children; the `type`-relevant top-level entries of the configuration are given
as `cfgPairs` and its `components` mapping as `comps`. -/
def start_component_tree_refs (rootClass : CompType)
    (cfgPairs : List (String × CompType)) (comps : List (String × NodeConfig)) :
    List (String × CompType) :=
  match root_type_ref? rootClass cfgPairs with
  | some t => initTypeRefs "" t comps
  | none => []

/-- Modelled from the spec: a parameter of an `inject`-decorated function whose
default is a `resource(name)` marker (§4.5; the injector lives in the missing
`_context.py`).  `isOptional` records whether the annotation is of the
`T | None` form. -/
structure InjectParam where
  ty : String
  resourceName : String
  isOptional : Bool

/-- Modelled from the spec: call-time resolution of the resource-marked
parameters of an `inject`-decorated function (§4.5): each marked parameter is
resolved against the current context chain, with `optional=True` exactly when
the annotation is optional, so that a missing optional resource binds null and
a missing required one propagates `ResourceNotFound` (behaviour pinned by
`test_missing_resource` and `test_inject_optional_resource_async`). -/
def inject_call : CtxChain → List InjectParam → Except PyExc (List (Option Nat) × CtxChain)
  | chain, [] => .ok ([], chain)
  | chain, p :: rest =>
    match get_resource_nowait chain p.ty p.resourceName p.isOptional with
    | .error e => .error e
    | .ok (v, chain2) =>
      match inject_call chain2 rest with
      | .error e => .error e
      | .ok (vs, chain3) => .ok (v :: vs, chain3)

/-
General lemmas about the registry model, shared by several claims.
-/

theorem lookupResList_append (l1 l2 : List ((String × String) × REntry))
    (ty nm : String) :
    lookupResList (l1 ++ l2) ty nm =
      (lookupResList l1 ty nm).or (lookupResList l2 ty nm) := by
  induction l1 with
  | nil => simp [lookupResList, Option.or]
  | cons kv rest ih =>
    obtain ⟨k, e⟩ := kv
    by_cases h : k = (ty, nm) <;> simp [lookupResList, h, ih, Option.or]

theorem lookupFactList_append (l1 l2 : List ((String × String) × FEntry))
    (ty nm : String) :
    lookupFactList (l1 ++ l2) ty nm =
      (lookupFactList l1 ty nm).or (lookupFactList l2 ty nm) := by
  induction l1 with
  | nil => simp [lookupFactList, Option.or]
  | cons kv rest ih =>
    obtain ⟨k, e⟩ := kv
    by_cases h : k = (ty, nm) <;> simp [lookupFactList, h, ih, Option.or]

theorem lookupResList_map (tys : List String) (nm' nm ty : String) (e : REntry) :
    lookupResList (tys.map (fun t => ((t, nm'), e))) ty nm =
      if nm' = nm ∧ ty ∈ tys then some e else none := by
  induction tys with
  | nil => simp [lookupResList]
  | cons t rest ih =>
    simp only [List.map_cons, lookupResList, ih]
    by_cases ht : t = ty
    · by_cases hnm : nm' = nm
      · simp [ht, hnm]
      · simp [hnm, Prod.ext_iff, ht]
    · by_cases hnm : nm' = nm
      · simp [Prod.ext_iff, ht, hnm, List.mem_cons, or_iff_right (Ne.symm ht)]
      · simp [Prod.ext_iff, ht, hnm]

theorem lookupFactList_map (tys : List String) (nm' nm ty : String) (e : FEntry) :
    lookupFactList (tys.map (fun t => ((t, nm'), e))) ty nm =
      if nm' = nm ∧ ty ∈ tys then some e else none := by
  induction tys with
  | nil => simp [lookupFactList]
  | cons t rest ih =>
    simp only [List.map_cons, lookupFactList, ih]
    by_cases ht : t = ty
    · by_cases hnm : nm' = nm
      · simp [ht, hnm]
      · simp [hnm, Prod.ext_iff, ht]
    · by_cases hnm : nm' = nm
      · simp [Prod.ext_iff, ht, hnm, List.mem_cons, or_iff_right (Ne.symm ht)]
      · simp [Prod.ext_iff, ht, hnm]

theorem findResource_cons_none (c : Ctx) (rest : CtxChain) (ty nm : String) :
    findResource (c :: rest) ty nm = none ↔
      lookupResList c.resources ty nm = none ∧ findResource rest ty nm = none := by
  cases h : lookupResList c.resources ty nm <;> simp [findResource, h]

theorem findFactory_cons_none (c : Ctx) (rest : CtxChain) (ty nm : String) :
    findFactory (c :: rest) ty nm = none ↔
      lookupFactList c.factories ty nm = none ∧ findFactory rest ty nm = none := by
  cases h : lookupFactList c.factories ty nm <;> simp [findFactory, h]

theorem get_resource_nowait_not_found (chain : CtxChain) (ty nm : String)
    (hres : findResource chain ty nm = none)
    (hfac : findFactory chain ty nm = none) :
    get_resource_nowait chain ty nm false = .error (.resourceNotFound ty nm) := by
  unfold get_resource_nowait
  rw [hres, hfac]
  rfl

/-
Claim C7 — what `start_component` raises when no context is active.
-/

/-- C7 counterexample: with an empty context stack, `start_component` raises
`RuntimeError("start_component() requires an active Asphalt context")`, not
`NoCurrentContext` — the guard catches `NoCurrentContext` and replaces it. -/
theorem claim_C7_counterexample :
    start_component_context_check [] =
      .error (.runtimeError "start_component() requires an active Asphalt context") ∧
    start_component_context_check [] ≠ .error .noCurrentContext := by
  refine ⟨rfl, ?_⟩
  simp [start_component_context_check, current_context]

/-- C7 (amended): whenever `current_context` fails with `NoCurrentContext`,
`start_component` fails with `RuntimeError` carrying the message
"start_component() requires an active Asphalt context" (the
`NoCurrentContext` is caught and suppressed with `from None`). -/
theorem claim_C7_amended (stack : List Nat)
    (h : current_context stack = .error .noCurrentContext) :
    start_component_context_check stack =
      .error (.runtimeError "start_component() requires an active Asphalt context") := by
  unfold start_component_context_check
  rw [h]

/-- C7 witness: the amended statement at the empty context stack. -/
theorem claim_C7_witness :
    current_context [] = .error .noCurrentContext ∧
    start_component_context_check [] =
      .error (.runtimeError "start_component() requires an active Asphalt context") :=
  ⟨rfl, claim_C7_amended [] rfl⟩

/-
Claim C4 — teardown order and exception aggregation of `Context.close`.
-/

theorem run_teardowns_spec (l : List TeardownCb) (exc : Option PyExc) :
    run_teardowns l exc =
      (l.map (fun cb => (cb.label, if cb.passException then exc else none)),
       l.filterMap TeardownCb.raises) := by
  induction l with
  | nil => simp [run_teardowns]
  | cons cb rest ih =>
    cases h : cb.raises <;>
      simp [run_teardowns, ih, h, List.filterMap_cons]

/-- C4: closing a context with teardown callbacks registered in order k1..kn
invokes them in the reverse order kn..k1 (sequentially, by construction of the
loop), runs every callback even when some raise, and raises one aggregate
error containing exactly the exceptions of the raising callbacks (none when no
callback raised). -/
theorem claim_C4 (callbacks : List TeardownCb) (exception : Option PyExc) :
    (close callbacks exception).1 =
      callbacks.reverse.map
        (fun cb => (cb.label, if cb.passException then exception else none)) ∧
    (close callbacks exception).1.length = callbacks.length ∧
    (close callbacks exception).2 =
      (if (callbacks.reverse.filterMap TeardownCb.raises).isEmpty then .ok ()
       else .error (.exceptionGroup (callbacks.reverse.filterMap TeardownCb.raises))) := by
  refine ⟨?_, ?_, ?_⟩ <;>
    (simp only [close, run_teardowns_spec]; try simp)

/-
Claim C10 — the `type` key of the configuration overrides the
`component_class` argument for the root node.
-/

theorem dict_get_set_comp (m : List (String × CompType)) (k1 k : String)
    (v : CompType) :
    dict_get_comp? (dict_set_comp m k1 v) k =
      if k1 = k then some v else dict_get_comp? m k := by
  induction m with
  | nil => simp [dict_set_comp, dict_get_comp?]
  | cons kv rest ih =>
    obtain ⟨k0, v0⟩ := kv
    by_cases h0 : k0 = k1
    · by_cases h : k1 = k <;> simp [dict_set_comp, dict_get_comp?, h0, h]
    · by_cases h : k0 = k
      · subst h
        have h2 : ¬k1 = k0 := fun hk => h0 hk.symm
        simp [dict_set_comp, dict_get_comp?, h0, h2]
      · simp [dict_set_comp, dict_get_comp?, h0, h, ih]

theorem foldl_dict_set_lookup (pairs : List (String × CompType))
    (m : List (String × CompType)) (k : String) :
    dict_get_comp? (pairs.foldl (fun m kv => dict_set_comp m kv.1 kv.2) m) k =
      (dict_get_comp? (py_dict_of pairs) k).or (dict_get_comp? m k) := by
  induction pairs generalizing m with
  | nil => simp [py_dict_of, dict_get_comp?, Option.or]
  | cons kv rest ih =>
    obtain ⟨k1, v1⟩ := kv
    have hfold : py_dict_of ((k1, v1) :: rest) =
        rest.foldl (fun m kv => dict_set_comp m kv.1 kv.2) (dict_set_comp [] k1 v1) := by
      simp [py_dict_of]
    rw [List.foldl_cons, ih, hfold, ih, dict_get_set_comp, dict_get_set_comp]
    cases hr : dict_get_comp? (py_dict_of rest) k
    · by_cases hk : k1 = k <;> simp [hk, Option.or, dict_get_comp?]
    · simp [Option.or]

/-- C10: in `start_component_tree`, the root mapping is
`d` mapping `type` to the class argument, updated with the configuration, so
the root is resolved from the configuration's own `type` value whenever the
configuration has one, and from the `component_class` argument only otherwise;
the resolved reference becomes the root entry of the instantiation sequence. -/
theorem claim_C10 (rootClass : CompType) (cfgPairs : List (String × CompType)) :
    (∀ t, dict_get_comp? (py_dict_of cfgPairs) "type" = some t →
       root_type_ref? rootClass cfgPairs = some t) ∧
    (dict_get_comp? (py_dict_of cfgPairs) "type" = none →
       root_type_ref? rootClass cfgPairs = some rootClass) ∧
    (∀ t comps, root_type_ref? rootClass cfgPairs = some t →
       (start_component_tree_refs rootClass cfgPairs comps).head? = some ("", t)) := by
  have hbase : root_type_ref? rootClass cfgPairs =
      (dict_get_comp? (py_dict_of cfgPairs) "type").or (some rootClass) := by
    unfold root_type_ref? root_start_mapping
    rw [foldl_dict_set_lookup]
    simp [dict_get_comp?]
  refine ⟨?_, ?_, ?_⟩
  · intro t ht
    rw [hbase, ht]
    rfl
  · intro ht
    rw [hbase, ht]
    rfl
  · intro t comps ht
    unfold start_component_tree_refs
    rw [ht]
    simp [initTypeRefs]

/-- C10 witness: a configuration with a `type` key overrides the class
argument; one without it falls back to the class argument. -/
theorem claim_C10_witness :
    root_type_ref? (.cls "RootComponent") [("type", CompType.str "custom")] =
      some (.str "custom") ∧
    root_type_ref? (.cls "RootComponent") [] = some (.cls "RootComponent") ∧
    (start_component_tree_refs (.cls "RootComponent")
        [("type", CompType.str "custom")] []).head? = some ("", .str "custom") :=
  ⟨(claim_C10 (.cls "RootComponent") [("type", CompType.str "custom")]).1 _ rfl,
   (claim_C10 (.cls "RootComponent") []).2.1 rfl,
   (claim_C10 (.cls "RootComponent") [("type", CompType.str "custom")]).2.2 _ []
     ((claim_C10 (.cls "RootComponent") [("type", CompType.str "custom")]).1 _ rfl)⟩

/-
Claim C9 — slash handling of string `type` values.
-/

/-- C9 counterexample: a configuration whose `type` value is the
slash-containing string "foo/bar" is resolved, at the root node, from the full
string "foo/bar" — not from "foo", the part before the slash — because
`start_component_tree` passes the merged root configuration to
`_init_component` without the slash-stripping that is applied only inside the
child-creation loop. -/
theorem claim_C9_counterexample :
    start_component_tree_refs (.cls "RootComponent")
        [("type", CompType.str "foo/bar")] [] = [("", CompType.str "foo/bar")] ∧
    strContainsSlash "foo/bar" = true ∧
    strBeforeSlash "foo/bar" = "foo" ∧
    CompType.str "foo/bar" ≠ CompType.str "foo" := by
  refine ⟨?_, by decide, by decide, by decide⟩
  simp [start_component_tree_refs, root_type_ref?, root_start_mapping,
    py_dict_of, dict_set_comp, dict_get_comp?, initTypeRefs, init_child_refs]

/-- C9 (amended): only for child component configurations is a slash-containing
string `type` value truncated to the part before the first slash for
resolution; the root node's `type` reference is used for resolution unchanged.
-/
theorem claim_C9_amended :
    (∀ s : String, strContainsSlash s = true →
       stripTypeSuffix (.str s) = .str (strBeforeSlash s)) ∧
    (∀ (path aName : String) (tk : Option CompType)
       (comps : List (String × NodeConfig)) (rest : List (String × NodeConfig)),
       (init_child_refs path ((aName, .mk tk comps) :: rest)).head? =
         some (finalPath path aName, stripTypeSuffix (tk.getD (.str aName)))) ∧
    (∀ (rootClass t : CompType) (cfgPairs : List (String × CompType))
       (comps : List (String × NodeConfig)),
       root_type_ref? rootClass cfgPairs = some t →
       (start_component_tree_refs rootClass cfgPairs comps).head? = some ("", t)) := by
  refine ⟨?_, ?_, ?_⟩
  · intro s hs
    simp [stripTypeSuffix, hs]
  · intro path aName tk comps rest
    simp [init_child_refs, initTypeRefs]
  · intro rootClass t cfgPairs comps ht
    unfold start_component_tree_refs
    rw [ht]
    simp [initTypeRefs]

/-- C9 witness: the amended statement on concrete inputs — the child type
"pg/alt" is resolved from "pg", while a root type "foo/bar" is resolved from
"foo/bar". -/
theorem claim_C9_witness :
    stripTypeSuffix (.str "pg/alt") = .str (strBeforeSlash "pg/alt") ∧
    (init_child_refs "" [("db", .mk (some (.str "pg/alt")) [])]).head? =
      some (finalPath "" "db", stripTypeSuffix (.str "pg/alt")) ∧
    (start_component_tree_refs (.cls "RootComponent")
        [("type", CompType.str "foo/bar")] []).head? =
      some ("", CompType.str "foo/bar") :=
  ⟨claim_C9_amended.1 "pg/alt" (by decide),
   by
     have h := claim_C9_amended.2.1 "" "db" (some (.str "pg/alt")) [] []
     simpa using h,
   claim_C9_amended.2.2 (.cls "RootComponent") (.str "foo/bar")
     [("type", CompType.str "foo/bar")] [] rfl⟩

/-
Claim C6 — wrapping of component instantiation / prepare / start failures in
`ComponentStartError`.
-/

/-- C6: an exception raised while instantiating a component class propagates
as `ComponentStartError("creating", path, class)` with the original exception
as cause; an exception from an overridden `prepare()` propagates as
`ComponentStartError("preparing", path, class)` with the original cause; and,
once `prepare` and the child starts have succeeded, an exception from an
overridden `start()` propagates as `ComponentStartError("starting", path,
class)` with the original cause. -/
theorem claim_C6 (path cls : String) (e : PyExc) (instantiation : Except PyExc Nat)
    (po : PhaseOutcomes) :
    (instantiation = .error e →
       init_component_events_result path cls instantiation =
         ([⟨cls, path, "creating"⟩],
          .error (.componentStartError "creating" path cls e))) ∧
    (po.prepareOverridden = true → po.prepareResult = .error e →
       (start_component_model path cls po).2 =
         .error (.componentStartError "preparing" path cls e)) ∧
    (po.startOverridden = true → po.startResult = .error e →
       (if po.prepareOverridden then po.prepareResult else .ok ()) = .ok () →
       (if po.hasChildren then po.childrenResult else .ok ()) = .ok () →
       (start_component_model path cls po).2 =
         .error (.componentStartError "starting" path cls e)) := by
  refine ⟨?_, ?_, ?_⟩
  · intro h
    rw [h]
    rfl
  · intro hov hres
    unfold start_component_model
    rw [hov]
    simp only [if_true]
    rw [hres]
  · intro hov hres hprep hchild
    unfold start_component_model
    rw [hprep, hchild, hov, hres]
    simp

/-- C6 witness: the three wrapping equations on concrete phase outcomes. -/
theorem claim_C6_witness :
    init_component_events_result "db" "DbComponent" (.error (.userError 7)) =
      ([⟨"DbComponent", "db", "creating"⟩],
       .error (.componentStartError "creating" "db" "DbComponent" (.userError 7))) ∧
    (start_component_model "db" "DbComponent"
        ⟨true, .error (.userError 8), false, .ok (), false, .ok ()⟩).2 =
      .error (.componentStartError "preparing" "db" "DbComponent" (.userError 8)) ∧
    (start_component_model "db" "DbComponent"
        ⟨false, .ok (), true, .ok (), true, .error (.userError 9)⟩).2 =
      .error (.componentStartError "starting" "db" "DbComponent" (.userError 9)) :=
  ⟨(claim_C6 "db" "DbComponent" (.userError 7) (.error (.userError 7))
      ⟨true, .ok (), false, .ok (), false, .ok ()⟩).1 rfl,
   (claim_C6 "db" "DbComponent" (.userError 8) (.ok 0)
      ⟨true, .error (.userError 8), false, .ok (), false, .ok ()⟩).2.1 rfl rfl,
   (claim_C6 "db" "DbComponent" (.userError 9) (.ok 0)
      ⟨false, .ok (), true, .ok (), true, .error (.userError 9)⟩).2.2 rfl rfl rfl rfl⟩

/-
Claim C8 — optional versus required injected resource parameters.
-/

/-- C8: calling an `inject`-decorated function inside an active context binds a
`resource()`-marked parameter with an optional annotation to null when no
matching resource exists, while the same parameter with a bare annotation
raises `ResourceNotFound`; when a matching resource exists, both variants bind
the resource value. -/
theorem claim_C8 (chain : CtxChain) (ty nm : String) :
    (findResource chain ty nm = none → findFactory chain ty nm = none →
       inject_call chain [⟨ty, nm, true⟩] = .ok ([none], chain)) ∧
    (findResource chain ty nm = none → findFactory chain ty nm = none →
       inject_call chain [⟨ty, nm, false⟩] = .error (.resourceNotFound ty nm)) ∧
    (∀ v, findResource chain ty nm = some v →
       inject_call chain [⟨ty, nm, true⟩] = .ok ([some v], chain) ∧
       inject_call chain [⟨ty, nm, false⟩] = .ok ([some v], chain)) := by
  refine ⟨?_, ?_, ?_⟩
  · intro hres hfac
    simp [inject_call, get_resource_nowait, hres, hfac]
  · intro hres hfac
    simp [inject_call, get_resource_nowait, hres, hfac]
  · intro v hres
    constructor <;> simp [inject_call, get_resource_nowait, hres]

/-- C8 witness: an absent `str` resource binds null under an optional
annotation and raises `ResourceNotFound` under a bare one; a present resource
binds its value under both. -/
theorem claim_C8_witness :
    inject_call [⟨0, [], []⟩] [⟨"str", "default", true⟩] = .ok ([none], [⟨0, [], []⟩]) ∧
    inject_call [⟨0, [], []⟩] [⟨"str", "default", false⟩] =
      .error (.resourceNotFound "str" "default") ∧
    inject_call [⟨0, [(("str", "default"), ⟨7, ["str"]⟩)], []⟩]
        [⟨"str", "default", false⟩] =
      .ok ([some 7], [⟨0, [(("str", "default"), ⟨7, ["str"]⟩)], []⟩]) :=
  ⟨(claim_C8 [⟨0, [], []⟩] "str" "default").1 rfl rfl,
   (claim_C8 [⟨0, [], []⟩] "str" "default").2.1 rfl rfl,
   ((claim_C8 [⟨0, [(("str", "default"), ⟨7, ["str"]⟩)], []⟩] "str" "default").2.2
     7 rfl).2⟩

/-
Claim C3 — single publication per key and the `ResourceConflict` message.
-/

theorem keyTaken_storeRes (c : Ctx) (tys : List String) (nm : String) (e : REntry)
    (t : String) (ht : t ∈ tys) : keyTaken (storeRes c tys nm e) t nm = true := by
  simp only [keyTaken, storeRes, lookupResList_append, lookupResList_map]
  cases h : lookupResList c.resources t nm <;> simp [h, Option.or, ht]

theorem keyTaken_storeFact (c : Ctx) (tys : List String) (nm : String) (e : FEntry)
    (t : String) (ht : t ∈ tys) : keyTaken (storeFact c tys nm e) t nm = true := by
  simp only [keyTaken, storeFact, lookupFactList_append, lookupFactList_map]
  cases h : lookupFactList c.factories t nm <;> simp [h, Option.or, ht]

theorem add_resource_ok_elim (c c2 : Ctx) (v : Nat) (name : String)
    (tys : List String) (vt : String)
    (h : add_resource c (some v) name tys vt = .ok c2) :
    validName name = true ∧
    (effTypes tys vt).find? (fun t => keyTaken c t name) = none ∧
    c2 = storeRes c (effTypes tys vt) name ⟨v, effTypes tys vt⟩ := by
  by_cases hv : validName name
  · refine ⟨hv, ?_⟩
    cases hf : (effTypes tys vt).find? (fun t => keyTaken c t name) with
    | none =>
      simp [add_resource, hv, hf] at h
      exact ⟨rfl, h.symm⟩
    | some t => simp [add_resource, hv, hf] at h
  · simp [add_resource, hv] at h

theorem add_resource_factory_ok_elim (c c3 : Ctx) (f : Nat → Nat) (name : String)
    (tys : List String)
    (h : add_resource_factory c f name tys = .ok c3) :
    validName name = true ∧
    tys.find? (fun t => keyTaken c t name) = none ∧
    c3 = storeFact c tys name ⟨f, tys⟩ := by
  by_cases hv : validName name
  · refine ⟨hv, ?_⟩
    by_cases he : tys.isEmpty
    · simp [add_resource_factory, hv, he] at h
    · cases hf : tys.find? (fun t => keyTaken c t name) with
      | none =>
        simp [add_resource_factory, hv, he, hf] at h
        exact ⟨rfl, h.symm⟩
      | some t => simp [add_resource_factory, hv, he, hf] at h
  · simp [add_resource_factory, hv] at h

theorem add_resource_conflict (c2 : Ctx) (v2 : Nat) (name : String)
    (tys2 : List String) (vt2 : String)
    (hv : validName name = true)
    (hk : ∃ t ∈ effTypes tys2 vt2, keyTaken c2 t name = true) :
    ∃ tc, add_resource c2 (some v2) name tys2 vt2 =
      .error (.resourceConflict (conflictMsg tc name)) := by
  have hsome : ((effTypes tys2 vt2).find? (fun t => keyTaken c2 t name)).isSome := by
    rw [List.find?_isSome]
    exact hk
  obtain ⟨tc, htc⟩ := Option.isSome_iff_exists.mp hsome
  exact ⟨tc, by simp [add_resource, hv, htc]⟩

/-- C3: once a `(type, name)` key has been published in a context — through
`add_resource` or through `add_resource_factory` — any later `add_resource`
whose effective types include that key's type fails with `ResourceConflict`,
and the conflict message for an `int` resource named `foo` contains the text
"already contains a resource of type int". -/
theorem claim_C3 (c c2 c3 : Ctx) (v : Nat) (name : String) (tys : List String)
    (vt : String) (f : Nat → Nat) (ftys : List String) :
    (add_resource c (some v) name tys vt = .ok c2 →
       ∀ v2 tys2 vt2 t, t ∈ effTypes tys vt → t ∈ effTypes tys2 vt2 →
       ∃ tc, add_resource c2 (some v2) name tys2 vt2 =
         .error (.resourceConflict (conflictMsg tc name))) ∧
    (add_resource_factory c f name ftys = .ok c3 →
       ∀ v2 tys2 vt2 t, t ∈ ftys → t ∈ effTypes tys2 vt2 →
       ∃ tc, add_resource c3 (some v2) name tys2 vt2 =
         .error (.resourceConflict (conflictMsg tc name))) ∧
    (∃ pre post, conflictMsg "int" "foo" =
       pre ++ "already contains a resource of type int" ++ post) := by
  refine ⟨?_, ?_, ?_⟩
  · intro hok v2 tys2 vt2 t htv htv2
    obtain ⟨hv, hfind, hc2⟩ := add_resource_ok_elim c c2 v name tys vt hok
    refine add_resource_conflict c2 v2 name tys2 vt2 hv ⟨t, htv2, ?_⟩
    rw [hc2]
    exact keyTaken_storeRes c (effTypes tys vt) name _ t htv
  · intro hok v2 tys2 vt2 t htv htv2
    obtain ⟨hv, hfind, hc3⟩ := add_resource_factory_ok_elim c c3 f name ftys hok
    refine add_resource_conflict c3 v2 name tys2 vt2 hv ⟨t, htv2, ?_⟩
    rw [hc3]
    exact keyTaken_storeFact c ftys name _ t htv
  · exact ⟨"this context ", " using the name " ++ apos ++ "foo" ++ apos, by decide⟩

/-- C3 witness: publishing the `int` resource named `foo` and publishing it
again raises `ResourceConflict`, as does publishing a value after a factory
for the same key. -/
theorem claim_C3_witness :
    (∃ tc, add_resource ⟨0, [(("int", "foo"), ⟨1, ["int"]⟩)], []⟩ (some 2) "foo"
        [] "int" = .error (.resourceConflict (conflictMsg tc "foo"))) ∧
    (∃ tc, add_resource ⟨0, [], [(("int", "foo"), ⟨fun i => i, ["int"]⟩)]⟩ (some 2)
        "foo" [] "int" = .error (.resourceConflict (conflictMsg tc "foo"))) ∧
    (∃ pre post, conflictMsg "int" "foo" =
       pre ++ "already contains a resource of type int" ++ post) :=
  ⟨(claim_C3 ⟨0, [], []⟩ ⟨0, [(("int", "foo"), ⟨1, ["int"]⟩)], []⟩ ⟨0, [], []⟩ 1
      "foo" [] "int" (fun i => i) ["int"]).1 rfl 2 [] "int" "int"
      (by decide) (by decide),
   (claim_C3 ⟨0, [], []⟩ ⟨0, [], []⟩ ⟨0, [], [(("int", "foo"), ⟨fun i => i, ["int"]⟩)]⟩
      1 "foo" [] "int" (fun i => i) ["int"]).2.1 rfl 2 [] "int" "int"
      (by decide) (by decide),
   (claim_C3 ⟨0, [], []⟩ ⟨0, [], []⟩ ⟨0, [], []⟩ 1 "foo" [] "int" (fun i => i)
      ["int"]).2.2⟩

/-
Claim C2 — per-context factory memoization.
-/

theorem findResource_storeRes_head (c : Ctx) (rest : CtxChain) (tys : List String)
    (nm ty : String) (e : REntry)
    (hc : lookupResList c.resources ty nm = none) (hty : ty ∈ tys) :
    findResource (storeRes c tys nm e :: rest) ty nm = some e.value := by
  simp [findResource, storeRes, lookupResList_append, hc, lookupResList_map,
    hty, Option.or]

/-- C2: when a factory is registered for `(ty, name)` somewhere in the chain
and no materialized resource exists yet, resolving in a child invokes the
factory with that child and stores the value as a `ResourceEntry` in the child
itself, leaving the rest of the chain (including the registering context)
untouched; resolving again in the same child returns the identical memoized
value and leaves the chain unchanged, so the factory is not invoked a second
time; and two distinct children of the same parent chain each obtain their own
distinct value. -/
theorem claim_C2 (child1 child2 : Ctx) (rest : CtxChain) (fe : FEntry)
    (ty name : String)
    (h1r : findResource (child1 :: rest) ty name = none)
    (h1f : findFactory (child1 :: rest) ty name = some fe)
    (h2r : findResource (child2 :: rest) ty name = none)
    (h2f : findFactory (child2 :: rest) ty name = some fe)
    (hty : ty ∈ fe.types)
    (hid : child1.ctxId ≠ child2.ctxId)
    (hinj : Function.Injective fe.factory) :
    (get_resource_nowait (child1 :: rest) ty name false =
       .ok (some (fe.factory child1.ctxId),
            storeRes child1 fe.types name
              ⟨fe.factory child1.ctxId, fe.types⟩ :: rest)) ∧
    (get_resource_nowait
        (storeRes child1 fe.types name
          ⟨fe.factory child1.ctxId, fe.types⟩ :: rest) ty name false =
       .ok (some (fe.factory child1.ctxId),
            storeRes child1 fe.types name
              ⟨fe.factory child1.ctxId, fe.types⟩ :: rest)) ∧
    (get_resource_nowait (child2 :: rest) ty name false =
       .ok (some (fe.factory child2.ctxId),
            storeRes child2 fe.types name
              ⟨fe.factory child2.ctxId, fe.types⟩ :: rest)) ∧
    fe.factory child1.ctxId ≠ fe.factory child2.ctxId := by
  have hmemo : findResource
      (storeRes child1 fe.types name
        ⟨fe.factory child1.ctxId, fe.types⟩ :: rest) ty name =
      some (fe.factory child1.ctxId) :=
    findResource_storeRes_head child1 rest fe.types name ty
      ⟨fe.factory child1.ctxId, fe.types⟩
      ((findResource_cons_none child1 rest ty name).mp h1r).1 hty
  refine ⟨?_, ?_, ?_, fun h => hid (hinj h)⟩
  · unfold get_resource_nowait
    rw [h1r, h1f]
  · unfold get_resource_nowait
    rw [hmemo]
  · unfold get_resource_nowait
    rw [h2r, h2f]

/-- C2 witness: an identity factory registered in the parent, resolved from
two distinct children with ids 1 and 2, materializes 1 in the first child and
2 in the second, and a repeated resolution in the first child is memoized. -/
theorem claim_C2_witness :
    (get_resource_nowait
        [⟨1, [], []⟩, ⟨0, [], [(("int", "default"), ⟨fun i => i, ["int"]⟩)]⟩]
        "int" "default" false =
      .ok (some 1,
           [⟨1, [(("int", "default"), ⟨1, ["int"]⟩)], []⟩,
            ⟨0, [], [(("int", "default"), ⟨fun i => i, ["int"]⟩)]⟩])) ∧
    (get_resource_nowait
        [⟨1, [(("int", "default"), ⟨1, ["int"]⟩)], []⟩,
         ⟨0, [], [(("int", "default"), ⟨fun i => i, ["int"]⟩)]⟩]
        "int" "default" false =
      .ok (some 1,
           [⟨1, [(("int", "default"), ⟨1, ["int"]⟩)], []⟩,
            ⟨0, [], [(("int", "default"), ⟨fun i => i, ["int"]⟩)]⟩])) ∧
    (1 : Nat) ≠ 2 := by
  have h := claim_C2 ⟨1, [], []⟩ ⟨2, [], []⟩
    [⟨0, [], [(("int", "default"), ⟨fun i => i, ["int"]⟩)]⟩]
    ⟨fun i => i, ["int"]⟩ "int" "default" rfl rfl rfl rfl
    (by decide) (by decide) (fun a b hab => hab)
  exact ⟨h.1, h.2.1, h.2.2.2⟩

/-
Claim C5 — supervisor behaviour: silent exit versus timeout diagnostics.
-/

theorem dictSet_fresh (m : StatusMap) (k : String) (v : CompStatus)
    (h : k ∉ m.map Prod.fst) : dictSet m k v = m ++ [(k, v)] := by
  induction m with
  | nil => rfl
  | cons kv rest ih =>
    obtain ⟨k0, v0⟩ := kv
    have hne : ¬k0 = k := fun he => h (by simp [he])
    have htail : k ∉ rest.map Prod.fst := fun ht => h (by simp [ht])
    simp [dictSet, hne, ih htail]

theorem dictSet_keys_mem (m : StatusMap) (k : String) (v : CompStatus)
    (h : k ∈ m.map Prod.fst) :
    (dictSet m k v).map Prod.fst = m.map Prod.fst := by
  induction m with
  | nil => simp at h
  | cons kv rest ih =>
    obtain ⟨k0, v0⟩ := kv
    by_cases he : k0 = k
    · simp [dictSet, he]
    · have htail : k ∈ rest.map Prod.fst := by
        have h2 : k = k0 ∨ k ∈ rest.map Prod.fst := by simpa using h
        exact h2.resolve_left (fun hk => he hk.symm)
      simp [dictSet, he, ih htail]

theorem dictGet?_mem (m : StatusMap) (k : String) (h : k ∈ m.map Prod.fst) :
    ∃ cs, dictGet? m k = some cs := by
  induction m with
  | nil => simp at h
  | cons kv rest ih =>
    obtain ⟨k0, v0⟩ := kv
    by_cases he : k0 = k
    · exact ⟨v0, by simp [dictGet?, he]⟩
    · have htail : k ∈ rest.map Prod.fst := by
        have h2 : k = k0 ∨ k ∈ rest.map Prod.fst := by simpa using h
        exact h2.resolve_left (fun hk => he hk.symm)
      obtain ⟨cs, hcs⟩ := ih htail
      exact ⟨cs, by simp [dictGet?, he, hcs]⟩

theorem dictDel?_mem (m : StatusMap) (k : String) (h : k ∈ m.map Prod.fst) :
    ∃ m2, dictDel? m k = some m2 ∧
      m2.map Prod.fst = (m.map Prod.fst).erase k := by
  induction m with
  | nil => simp at h
  | cons kv rest ih =>
    obtain ⟨k0, v0⟩ := kv
    by_cases he : k0 = k
    · refine ⟨rest, by simp [dictDel?, he], ?_⟩
      simp [List.erase_cons, he]
    · have htail : k ∈ rest.map Prod.fst := by
        have h2 : k = k0 ∨ k ∈ rest.map Prod.fst := by simpa using h
        exact h2.resolve_left (fun hk => he hk.symm)
      obtain ⟨m2, hdel, hkeys⟩ := ih htail
      refine ⟨(k0, v0) :: m2, by simp [dictDel?, he, hdel], ?_⟩
      have hbeq : (k0 == k) = false := by
        simp [he]
      simp [List.erase_cons, hbeq, hkeys]

theorem watch_loop_completes (events : List SupEvent) (pend : List String)
    (hc : Completes pend events) :
    ∀ m : StatusMap, m.map Prod.fst = pend → watch_loop events m = .ok [] := by
  induction hc with
  | nil =>
    intro m hm
    have : m = [] := by
      cases m with
      | nil => rfl
      | cons kv rest => simp at hm
    simp [this, watch_loop]
  | creating cls path pend rest hfresh hrest ih =>
    intro m hm
    have hnotin : path ∉ m.map Prod.fst := hm ▸ hfresh
    have hkeys : (dictSet m path ⟨cls, "creating"⟩).map Prod.fst = pend ++ [path] := by
      rw [dictSet_fresh m path _ hnotin]
      simp [hm]
    simpa [watch_loop] using ih _ hkeys
  | startedLast cls path pend rest hmem hlast =>
    intro m hm
    have hmm : path ∈ m.map Prod.fst := hm ▸ hmem
    obtain ⟨m2, hdel, hkeys⟩ := dictDel?_mem m path hmm
    have hm2 : m2 = [] := by
      have : m2.map Prod.fst = [] := by rw [hkeys, hm, hlast]
      cases m2 with
      | nil => rfl
      | cons kv r => simp at this
    simp [watch_loop, hdel, hm2]
  | startedMore cls path pend rest hmem hmore hrest ih =>
    intro m hm
    have hmm : path ∈ m.map Prod.fst := hm ▸ hmem
    obtain ⟨m2, hdel, hkeys⟩ := dictDel?_mem m path hmm
    have hkeys2 : m2.map Prod.fst = pend.erase path := by rw [hkeys, hm]
    have hne : ¬m2.isEmpty := by
      intro hemp
      have : m2 = [] := List.isEmpty_iff.mp hemp
      rw [this] at hkeys2
      exact hmore hkeys2.symm
    have : m2.isEmpty = false := by
      cases he : m2.isEmpty
      · rfl
      · exact absurd he hne
    simpa [watch_loop, hdel, this] using ih m2 hkeys2
  | progress cls path st pend rest hst1 hst2 hmem hrest ih =>
    intro m hm
    have hmm : path ∈ m.map Prod.fst := hm ▸ hmem
    obtain ⟨cs, hget⟩ := dictGet?_mem m path hmm
    have hkeys : (dictSet m path ⟨cs.cls, st⟩).map Prod.fst = pend :=
      hm ▸ dictSet_keys_mem m path _ hmm
    simpa [watch_loop, hst1, hst2, hget] using ih _ hkeys

/-- C5: the supervisor exits silently — no log, no exception — whenever every
component path recorded as `creating` also reports `started` within the events
delivered before the deadline; and when unfinished components remain after the
deadline, it logs one status line per unfinished path, carrying that path's
last reported status, and raises `TimeoutError`. -/
theorem claim_C5 :
    (∀ processed : List SupEvent, Completes [] processed →
       watch_component_tree_startup processed = ⟨[], none⟩) ∧
    (∀ (processed : List SupEvent) (m : StatusMap),
       watch_loop processed [] = .ok m → m ≠ [] →
       watch_component_tree_startup processed =
         ⟨m.map (fun pc => statusLine pc.1 pc.2.status),
          some (.timeoutError "timeout starting component tree")⟩ ∧
       ∀ p cs, (p, cs) ∈ m →
         statusLine p cs.status ∈ m.map (fun pc => statusLine pc.1 pc.2.status)) := by
  constructor
  · intro processed hc
    have h := watch_loop_completes processed [] hc [] rfl
    unfold watch_component_tree_startup
    rw [h]
    rfl
  · intro processed m hloop hne
    have hemp : m.isEmpty = false := by
      cases he : m.isEmpty
      · rfl
      · exact absurd (List.isEmpty_iff.mp he) hne
    refine ⟨?_, ?_⟩
    · unfold watch_component_tree_startup
      rw [hloop]
      simp [hemp]
    · intro p cs hmem
      exact List.mem_map.mpr ⟨(p, cs), hmem, rfl⟩

/-- C5 witness: a trace where the root creates and starts exits silently; a
trace where the root and a child are created but the child is still starting
at the deadline is reported with both paths and their last statuses, and
`TimeoutError` is raised. -/
theorem claim_C5_witness :
    watch_component_tree_startup
        [⟨"RootComponent", "", "creating"⟩, ⟨"RootComponent", "", "started"⟩] =
      ⟨[], none⟩ ∧
    watch_component_tree_startup
        [⟨"RootComponent", "", "creating"⟩, ⟨"ChildComponent", "db", "creating"⟩,
         ⟨"ChildComponent", "db", "starting"⟩] =
      ⟨[statusLine "" "creating", statusLine "db" "starting"],
       some (.timeoutError "timeout starting component tree")⟩ :=
  ⟨claim_C5.1 _
    (Completes.creating "RootComponent" "" [] _ (by simp)
      (Completes.startedLast "RootComponent" "" [""] [] (by simp) (by decide))),
   (claim_C5.2
      [⟨"RootComponent", "", "creating"⟩, ⟨"ChildComponent", "db", "creating"⟩,
       ⟨"ChildComponent", "db", "starting"⟩]
      [("", ⟨"RootComponent", "creating"⟩), ("db", ⟨"ChildComponent", "starting"⟩)]
      rfl (by simp)).1⟩

/-
Claim C1 — the waiting `get_resource` of the component context proxy.
-/

theorem modifyAt_length (chain : CtxChain) (i : Nat) (g : Ctx → Ctx) :
    (modifyAt chain i g).length = chain.length := by
  induction chain generalizing i with
  | nil => rfl
  | cons c rest ih =>
    cases i with
    | zero => rfl
    | succ j => simp [modifyAt, ih]

theorem modifyAt_out_of_range (chain : CtxChain) (i : Nat) (g : Ctx → Ctx)
    (h : chain.length ≤ i) : modifyAt chain i g = chain := by
  induction chain generalizing i with
  | nil => rfl
  | cons c rest ih =>
    cases i with
    | zero => simp at h
    | succ j =>
      simp only [List.length_cons, Nat.succ_le_succ_iff] at h
      simp [modifyAt, ih j h]

theorem applyPub_length (chain : CtxChain) (p : Pub) :
    (applyPub chain p).length = chain.length := by
  cases p <;> simp [applyPub, modifyAt_length]

theorem applyPub_out_of_range (chain : CtxChain) (p : Pub)
    (h : chain.length ≤ p.pidx) : applyPub chain p = chain := by
  cases p <;> exact modifyAt_out_of_range _ _ _ h

theorem findResource_modifyAt (ty nm : String) (g : Ctx → Ctx)
    (hg : ∀ c, lookupResList (g c).resources ty nm = lookupResList c.resources ty nm) :
    ∀ (chain : CtxChain) (i : Nat),
      findResource (modifyAt chain i g) ty nm = findResource chain ty nm := by
  intro chain
  induction chain with
  | nil => intro i; rfl
  | cons c rest ih =>
    intro i
    cases i with
    | zero =>
      show findResource (g c :: rest) ty nm = findResource (c :: rest) ty nm
      unfold findResource
      rw [hg c]
    | succ j =>
      cases h : lookupResList c.resources ty nm <;>
        simp [modifyAt, findResource, h, ih j]

theorem findFactory_modifyAt (ty nm : String) (g : Ctx → Ctx)
    (hg : ∀ c, lookupFactList (g c).factories ty nm = lookupFactList c.factories ty nm) :
    ∀ (chain : CtxChain) (i : Nat),
      findFactory (modifyAt chain i g) ty nm = findFactory chain ty nm := by
  intro chain
  induction chain with
  | nil => intro i; rfl
  | cons c rest ih =>
    intro i
    cases i with
    | zero =>
      show findFactory (g c :: rest) ty nm = findFactory (c :: rest) ty nm
      unfold findFactory
      rw [hg c]
    | succ j =>
      cases h : lookupFactList c.factories ty nm <;>
        simp [modifyAt, findFactory, h, ih j]

theorem pubMatches_res_elim (i : Nat) (nm' : String) (tys : List String) (v : Nat)
    (ty nm : String) (h : pubMatches (.res i nm' tys v) ty nm = true) :
    nm' = nm ∧ ty ∈ tys := by
  simpa [pubMatches, Pub.rname, Pub.rtypes] using h

theorem pubMatches_fact_elim (i : Nat) (nm' : String) (tys : List String)
    (f : Nat → Nat) (ty nm : String)
    (h : pubMatches (.fact i nm' tys f) ty nm = true) :
    nm' = nm ∧ ty ∈ tys := by
  simpa [pubMatches, Pub.rname, Pub.rtypes] using h

theorem applyPub_preserves_of_not_match (chain : CtxChain) (p : Pub)
    (ty nm : String) (h : pubMatches p ty nm = false) :
    findResource (applyPub chain p) ty nm = findResource chain ty nm ∧
    findFactory (applyPub chain p) ty nm = findFactory chain ty nm := by
  cases p with
  | res i nm' tys v =>
    have hcond : ¬(nm' = nm ∧ ty ∈ tys) := by
      intro hc
      simp [pubMatches, Pub.rname, Pub.rtypes, hc.1, hc.2] at h
    constructor
    · refine findResource_modifyAt ty nm
        (fun c => storeRes c tys nm' ⟨v, tys⟩) (fun c => ?_) chain i
      simp [storeRes, lookupResList_append, lookupResList_map, hcond,
        Option.or_none]
    · exact findFactory_modifyAt ty nm
        (fun c => storeRes c tys nm' ⟨v, tys⟩) (fun c => rfl) chain i
  | fact i nm' tys f =>
    have hcond : ¬(nm' = nm ∧ ty ∈ tys) := by
      intro hc
      simp [pubMatches, Pub.rname, Pub.rtypes, hc.1, hc.2] at h
    constructor
    · exact findResource_modifyAt ty nm
        (fun c => storeFact c tys nm' ⟨f, tys⟩) (fun c => rfl) chain i
    · refine findFactory_modifyAt ty nm
        (fun c => storeFact c tys nm' ⟨f, tys⟩) (fun c => ?_) chain i
      simp [storeFact, lookupFactList_append, lookupFactList_map, hcond,
        Option.or_none]

theorem findResource_applyPub_res (chain : CtxChain) (i : Nat) (nm : String)
    (tys : List String) (v : Nat) (ty : String) (hty : ty ∈ tys)
    (hres : findResource chain ty nm = none) (hi : i < chain.length) :
    findResource (applyPub chain (.res i nm tys v)) ty nm = some v := by
  induction chain generalizing i with
  | nil => simp at hi
  | cons c rest ih =>
    obtain ⟨hc, hrest⟩ := (findResource_cons_none c rest ty nm).mp hres
    cases i with
    | zero =>
      exact findResource_storeRes_head c rest tys nm ty ⟨v, tys⟩ hc hty
    | succ j =>
      have hj : j < rest.length := Nat.succ_lt_succ_iff.mp hi
      cases h : lookupResList c.resources ty nm with
      | some e => rw [h] at hc; cases hc
      | none =>
        simpa [applyPub, modifyAt, findResource, h] using ih j hrest hj

theorem findFactory_storeFact_head (c : Ctx) (rest : CtxChain) (tys : List String)
    (nm ty : String) (e : FEntry)
    (hc : lookupFactList c.factories ty nm = none) (hty : ty ∈ tys) :
    findFactory (storeFact c tys nm e :: rest) ty nm = some e := by
  simp [findFactory, storeFact, lookupFactList_append, hc, lookupFactList_map,
    hty, Option.or]

theorem findFactory_applyPub_fact (chain : CtxChain) (i : Nat) (nm : String)
    (tys : List String) (f : Nat → Nat) (ty : String) (hty : ty ∈ tys)
    (hfac : findFactory chain ty nm = none) (hi : i < chain.length) :
    findFactory (applyPub chain (.fact i nm tys f)) ty nm = some ⟨f, tys⟩ := by
  induction chain generalizing i with
  | nil => simp at hi
  | cons c rest ih =>
    obtain ⟨hc, hrest⟩ := (findFactory_cons_none c rest ty nm).mp hfac
    cases i with
    | zero =>
      exact findFactory_storeFact_head c rest tys nm ty ⟨f, tys⟩ hc hty
    | succ j =>
      have hj : j < rest.length := Nat.succ_lt_succ_iff.mp hi
      cases h : lookupFactList c.factories ty nm with
      | some e => rw [h] at hc; cases hc
      | none =>
        simpa [applyPub, modifyAt, findFactory, h] using ih j hrest hj

theorem get_after_res_match (chain : CtxChain) (i : Nat) (nm : String)
    (tys : List String) (v : Nat) (ty : String) (hty : ty ∈ tys)
    (hres : findResource chain ty nm = none) (hi : i < chain.length) :
    get_resource_nowait (applyPub chain (.res i nm tys v)) ty nm false =
      .ok (some v, applyPub chain (.res i nm tys v)) := by
  have h := findResource_applyPub_res chain i nm tys v ty hty hres hi
  unfold get_resource_nowait
  rw [h]

theorem get_after_match (chain : CtxChain) (p : Pub) (ty nm : String)
    (hm : pubMatches p ty nm = true) (hi : p.pidx < chain.length)
    (hres : findResource chain ty nm = none)
    (hfac : findFactory chain ty nm = none) :
    ∃ v c3, get_resource_nowait (applyPub chain p) ty nm false =
      .ok (some v, c3) := by
  cases p with
  | res i nm' tys v =>
    obtain ⟨hnm, hty⟩ := pubMatches_res_elim i nm' tys v ty nm hm
    subst hnm
    exact ⟨v, applyPub chain (.res i nm' tys v),
      get_after_res_match chain i nm' tys v ty hty hres (by exact hi)⟩
  | fact i nm' tys f =>
    obtain ⟨hnm, hty⟩ := pubMatches_fact_elim i nm' tys f ty nm hm
    subst hnm
    have hres2 : findResource (applyPub chain (.fact i nm' tys f)) ty nm' = none := by
      simp only [applyPub]
      rw [findResource_modifyAt ty nm'
        (fun c => storeFact c tys nm' ⟨f, tys⟩) (fun c => rfl) chain i]
      exact hres
    have hfac2 : findFactory (applyPub chain (.fact i nm' tys f)) ty nm' =
        some ⟨f, tys⟩ :=
      findFactory_applyPub_fact chain i nm' tys f ty hty hfac (by exact hi)
    have hlen : 0 < (applyPub chain (.fact i nm' tys f)).length := by
      rw [applyPub_length]
      exact Nat.lt_of_le_of_lt (Nat.zero_le _) hi
    cases hch : applyPub chain (.fact i nm' tys f) with
    | nil => rw [hch] at hlen; simp at hlen
    | cons c2 rest2 =>
      rw [hch] at hres2 hfac2
      refine ⟨FEntry.factory ⟨f, tys⟩ c2.ctxId,
        storeRes c2 (FEntry.types ⟨f, tys⟩) nm'
          ⟨FEntry.factory ⟨f, tys⟩ c2.ctxId, FEntry.types ⟨f, tys⟩⟩ :: rest2, ?_⟩
      unfold get_resource_nowait
      rw [hres2, hfac2]

theorem proxy_wait_some (ty nm : String) :
    ∀ (pubs : List Pub) (chain : CtxChain),
      findResource chain ty nm = none → findFactory chain ty nm = none →
      (∃ p ∈ pubs, pubMatches p ty nm = true ∧ p.pidx < chain.length) →
      ∃ v c2, proxy_wait chain pubs ty nm = some (v, c2) := by
  intro pubs
  induction pubs with
  | nil =>
    intro chain hres hfac hmatch
    obtain ⟨p, hp, _⟩ := hmatch
    simp at hp
  | cons p rest ih =>
    intro chain hres hfac hmatch
    cases hm : pubMatches p ty nm with
    | true =>
      by_cases hi : p.pidx < chain.length
      · obtain ⟨v, c3, hg⟩ := get_after_match chain p ty nm hm hi hres hfac
        exact ⟨v, c3, by simp [proxy_wait, hm, hg]⟩
      · have hchain2 : applyPub chain p = chain :=
          applyPub_out_of_range chain p (Nat.le_of_not_lt hi)
        have hg : get_resource_nowait (applyPub chain p) ty nm false =
            .error (.resourceNotFound ty nm) := by
          rw [hchain2]
          exact get_resource_nowait_not_found chain ty nm hres hfac
        obtain ⟨p', hp', hpm, hpi⟩ := hmatch
        have hp'rest : p' ∈ rest := by
          rcases List.mem_cons.mp hp' with he | ht
          · subst he; exact absurd hpi hi
          · exact ht
        obtain ⟨v, c2, hw⟩ := ih chain hres hfac ⟨p', hp'rest, hpm, hpi⟩
        refine ⟨v, c2, ?_⟩
        simp only [proxy_wait, hm, if_true, hg]
        rw [hchain2]
        exact hw
    | false =>
      obtain ⟨hre, hfe⟩ := applyPub_preserves_of_not_match chain p ty nm hm
      have hres2 := hre.trans hres
      have hfac2 := hfe.trans hfac
      obtain ⟨p', hp', hpm, hpi⟩ := hmatch
      have hp'rest : p' ∈ rest := by
        rcases List.mem_cons.mp hp' with he | ht
        · subst he; rw [hpm] at hm; cases hm
        · exact ht
      have hpi2 : p'.pidx < (applyPub chain p).length := by
        rw [applyPub_length]
        exact hpi
      obtain ⟨v, c2, hw⟩ := ih (applyPub chain p) hres2 hfac2 ⟨p', hp'rest, hpm, hpi2⟩
      exact ⟨v, c2, by simp [proxy_wait, hm, hw]⟩

theorem proxy_wait_first_res (ty nm : String) (i : Nat) (tys : List String)
    (v : Nat) (post : List Pub) (hty : ty ∈ tys) :
    ∀ (pre : List Pub) (chain : CtxChain),
      findResource chain ty nm = none → findFactory chain ty nm = none →
      (∀ q ∈ pre, pubMatches q ty nm = false) → i < chain.length →
      ∃ c2, proxy_wait chain (pre ++ .res i nm tys v :: post) ty nm =
        some (v, c2) := by
  intro pre
  induction pre with
  | nil =>
    intro chain hres hfac hpre hi
    have hm : pubMatches (.res i nm tys v) ty nm = true := by
      simp [pubMatches, Pub.rname, Pub.rtypes, hty]
    have hg := get_after_res_match chain i nm tys v ty hty hres hi
    exact ⟨applyPub chain (.res i nm tys v), by simp [proxy_wait, hm, hg]⟩
  | cons q pre' ih =>
    intro chain hres hfac hpre hi
    have hq : pubMatches q ty nm = false := hpre q (List.mem_cons_self q pre')
    obtain ⟨hre, hfe⟩ := applyPub_preserves_of_not_match chain q ty nm hq
    have hres2 := hre.trans hres
    have hfac2 := hfe.trans hfac
    have hpre' : ∀ r ∈ pre', pubMatches r ty nm = false :=
      fun r hr => hpre r (List.mem_cons_of_mem q hr)
    have hi2 : i < (applyPub chain q).length := by
      rw [applyPub_length]
      exact hi
    obtain ⟨c2, hw⟩ := ih (applyPub chain q) hres2 hfac2 hpre' hi2
    exact ⟨c2, by simp [proxy_wait, hq, hw]⟩

/-- C1: when neither a matching resource nor a matching factory exists anywhere
in the chain, the proxy's `get_resource` with `optional=False` does not raise:
it waits on the `resource_added` events of the chain, and as soon as some
published event matches `(name, type in resource_types)` on a context of the
chain it resolves to a value; in particular, when the first matching
publication is an `add_resource` of value `v` under the requested type and
name, the call returns exactly that published value. -/
theorem claim_C1 (chain : CtxChain) (pubs : List Pub) (ty nm : String)
    (hres : findResource chain ty nm = none)
    (hfac : findFactory chain ty nm = none) :
    ((∃ p ∈ pubs, pubMatches p ty nm = true ∧ p.pidx < chain.length) →
       ∃ v c2, proxy_get_resource chain pubs ty nm = some (v, c2)) ∧
    (∀ pre i tys v post, pubs = pre ++ .res i nm tys v :: post →
       (∀ q ∈ pre, pubMatches q ty nm = false) → ty ∈ tys → i < chain.length →
       ∃ c2, proxy_get_resource chain pubs ty nm = some (v, c2)) := by
  have hbase := get_resource_nowait_not_found chain ty nm hres hfac
  have hpg : proxy_get_resource chain pubs ty nm = proxy_wait chain pubs ty nm := by
    unfold proxy_get_resource
    rw [hbase]
  constructor
  · intro hmatch
    rw [hpg]
    exact proxy_wait_some ty nm pubs chain hres hfac hmatch
  · intro pre i tys v post hsplit hpre hty hi
    rw [hpg, hsplit]
    exact proxy_wait_first_res ty nm i tys v post hty pre chain hres hfac hpre hi

/-- C1 witness: a consumer waiting on an empty chain for `(int, "default")`
returns the value 42 published concurrently by `add_resource`. -/
theorem claim_C1_witness :
    ∃ c2, proxy_get_resource [⟨0, [], []⟩] [Pub.res 0 "default" ["int"] 42]
      "int" "default" = some (42, c2) :=
  (claim_C1 [⟨0, [], []⟩] [Pub.res 0 "default" ["int"] 42] "int" "default"
    rfl rfl).2 [] 0 ["int"] 42 [] rfl (by simp) (by decide) (by decide)
